import Mathlib

/-!
# Verification of the VMD traffic-flow demo pipeline

Shallow embedding of the core pipeline of `VMD_DEMO.py`:

* numeric coercion of raw spreadsheet fields (`pd.to_numeric(..., errors='coerce').fillna(0)`),
* per-record weighted flow (`Total_Flow`) and timestamp (`Date + (采集时间 - 1) * 5 min`),
* grid alignment (`groupby('Datetime').sum()` then `reindex(pd.date_range(min, max, freq='5T'),
  fill_value=0)`),
* the selectable start dates (`unique_dates[:-1] if days_to_add == 2 else unique_dates`),
* the weighted reconstruction (`np.maximum(0, np.sum([u[i] * weights[i] ...], axis=0))`).

Timestamps are modelled in minutes as rationals; flow values are rationals.
-/

set_option autoImplicit false

namespace VMDDemo

/-- A raw spreadsheet row, after the sheet-level filtering decisions but before numeric
coercion.  Each of the six category-count fields and the time-slot field (`采集时间`) is the
result of `pd.to_numeric(..., errors='coerce')`: `none` models a value that failed numeric
parsing (NaN), `some q` a parsed number.  `date` is the parsed `采集日期` in minutes since the
epoch (a midnight, but we do not need that here).  `loopId` is the `线圈号` cell. -/
structure RawRow where
  loopId : String
  passenger : Option ℚ
  bus : Option ℚ
  lightTruck : Option ℚ
  heavyTruck : Option ℚ
  trailer : Option ℚ
  motorcycle : Option ℚ
  slot : Option ℚ
  date : ℤ

/-- A raw record after numeric coercion: all numeric fields are plain rationals. -/
structure RawRecord where
  passenger : ℚ
  bus : ℚ
  lightTruck : ℚ
  heavyTruck : ℚ
  trailer : ℚ
  motorcycle : ℚ
  slot : ℚ
  date : ℤ

/-- `pd.to_numeric(col, errors='coerce').fillna(0)`: a field that failed parsing (NaN)
becomes `0`; a parsed number is kept. -/
def coerceField (o : Option ℚ) : ℚ := o.getD 0

/-- Numeric coercion of a whole row (the `for col in cols_to_numeric` loop). -/
def coerceRow (r : RawRow) : RawRecord where
  passenger := coerceField r.passenger
  bus := coerceField r.bus
  lightTruck := coerceField r.lightTruck
  heavyTruck := coerceField r.heavyTruck
  trailer := coerceField r.trailer
  motorcycle := coerceField r.motorcycle
  slot := coerceField r.slot
  date := r.date

/-- `Total_Flow`: the fixed weighted sum of the six category counts
(`小客车*1.0 + 大客车*1.5 + 小货车*1.0 + 大货车*2.0 + 拖挂车*3.0 + 摩托车*1.0`). -/
def totalFlow (r : RawRecord) : ℚ :=
  r.passenger * 1.0 + r.bus * 1.5 + r.lightTruck * 1.0 + r.heavyTruck * 2.0 +
    r.trailer * 3.0 + r.motorcycle * 1.0

/-- `Datetime`: `Date + (采集时间 - 1) * 5` minutes. -/
def recordDatetime (r : RawRecord) : ℚ := (r.date : ℚ) + (r.slot - 1) * 5

/-- A timestamped flow sample: one `(Datetime, Total_Flow)` pair, timestamp in minutes. -/
structure Sample where
  ts : ℚ
  flow : ℚ
deriving DecidableEq

/-- The sample a coerced record contributes to the aggregation. -/
def rowToSample (r : RawRecord) : Sample := ⟨recordDatetime r, totalFlow r⟩

/-- Minimum of a list of rationals, `none` on the empty list (pandas `Series.min` giving
`NaT`/NaN on an empty series). -/
def listMin : List ℚ → Option ℚ
  | [] => none
  | x :: xs => some (xs.foldl min x)

/-- Maximum of a list of rationals, `none` on the empty list. -/
def listMax : List ℚ → Option ℚ
  | [] => none
  | x :: xs => some (xs.foldl max x)

/-- `groupby('Datetime')['Total_Flow'].sum()` evaluated at one timestamp: the sum of the
flows of all samples carrying exactly that timestamp. -/
def aggFlow (samples : List Sample) (t : ℚ) : ℚ :=
  ((samples.filter fun s => decide (s.ts = t)).map Sample.flow).sum

/-- `pd.date_range(start, end, freq='5T')` on minute-valued endpoints: every timestamp
`start + 5*k` with `start + 5*k ≤ end`, in increasing order; empty when `start > end`. -/
def dateRange (s e : ℚ) : List ℚ :=
  if s ≤ e then (List.range (⌊(e - s) / 5⌋.toNat + 1)).map fun k : ℕ => s + 5 * (k : ℚ)
  else []

/-- `reindex(full_idx, fill_value=0)` evaluated at one grid timestamp: the aggregated value
when the timestamp occurs among the sample timestamps, `0` otherwise. -/
def alignValue (samples : List Sample) (t : ℚ) : ℚ :=
  if t ∈ samples.map Sample.ts then aggFlow samples t else 0

/-- The grid aligner (lines 57-60 of `VMD_DEMO.py`): group-and-sum by timestamp, build the
5-minute grid from the minimum to the maximum observed timestamp, and reindex with fill
value `0`.  On an empty sample collection `agg_df['Datetime'].min()`/`.max()` are `NaT` and
`pd.date_range(NaT, NaT, freq='5T')` raises `ValueError`, modelled by `Except.error ()`. -/
def gridAlign (samples : List Sample) : Except Unit (List Sample) :=
  match listMin (samples.map Sample.ts), listMax (samples.map Sample.ts) with
  | some s, some e => .ok ((dateRange s e).map fun t => ⟨t, alignValue samples t⟩)
  | _, _ => .error ()

/-- One sheet of the workbook: whether it carries the `线圈号` column, and its rows. -/
structure Sheet where
  hasLoopCol : Bool
  rows : List RawRow

/-- `load_and_preprocess`: keep the sheets carrying the `线圈号` column, drop the
header-repeat rows (`线圈号 == 'LoopId'`), return `none` when no sheet qualifies
(`if not dfs: return None`), otherwise concatenate, coerce, compute samples and grid-align. -/
def loadAndPreprocess (sheets : List Sheet) : Option (Except Unit (List Sample)) :=
  let dfs := (sheets.filter fun sh => sh.hasLoopCol).map
    fun sh => sh.rows.filter fun r => decide (r.loopId ≠ "LoopId")
  if dfs.isEmpty then none
  else some (gridAlign (dfs.flatten.map fun r => rowToSample (coerceRow r)))

/-- The day (as a day index) a minute-valued timestamp falls on (`df['Datetime'].dt.date`). -/
def dateOf (t : ℚ) : ℤ := ⌊t / 1440⌋

/-- pandas `Series.unique()`: distinct values in order of first occurrence. -/
def pdUnique (l : List ℤ) : List ℤ :=
  l.foldl (fun acc x => if x ∈ acc then acc else acc ++ [x]) []

/-- `unique_dates`: the distinct calendar dates of the aligned series, in order. -/
def uniqueDates (series : List Sample) : List ℤ :=
  pdUnique (series.map fun s => dateOf s.ts)

/-- `valid_start_dates = unique_dates[:-1] if days_to_add == 2 else unique_dates`. -/
def validStartDates (series : List Sample) (daysToAdd : ℕ) : List ℤ :=
  if daysToAdd = 2 then (uniqueDates series).dropLast else uniqueDates series

/-- `u[i] * weights[i]`: a component series scaled by one weight. -/
def scaleSeries (xs : List ℚ) (c : ℚ) : List ℚ := xs.map fun x => x * c

/-- `[u[i] * weights[i] for i in range(6)]`. -/
def imfsWeighted (u : Fin 6 → List ℚ) (w : Fin 6 → ℚ) : List (List ℚ) :=
  [scaleSeries (u 0) (w 0), scaleSeries (u 1) (w 1), scaleSeries (u 2) (w 2),
   scaleSeries (u 3) (w 3), scaleSeries (u 4) (w 4), scaleSeries (u 5) (w 5)]

/-- `np.sum(ls, axis=0)`: elementwise sum of a list of series. -/
def npSumAxis0 : List (List ℚ) → List ℚ
  | [] => []
  | x :: xs => xs.foldl (List.zipWith (· + ·)) x

/-- `reconstructed_signal = np.maximum(0, np.sum(imfs_weighted, axis=0))`. -/
def reconstructedSignal (u : Fin 6 → List ℚ) (w : Fin 6 → ℚ) : List ℚ :=
  (npSumAxis0 (imfsWeighted u w)).map fun x => max 0 x

/-- `w_i = st.sidebar.slider(...) if show_imf_i else 0.0`: the weight actually used for a
component is the slider value when its toggle is on, and `0.0` when it is off. -/
def effectiveWeight (toggle : Bool) (slider : ℚ) : ℚ := if toggle then slider else 0

/-! ### Helper lemmas about `listMin` and `listMax` -/

lemma foldl_min_le_init (xs : List ℚ) : ∀ a : ℚ, xs.foldl min a ≤ a := by
  induction xs with
  | nil => intro a; exact le_refl a
  | cons x xs ih => intro a; exact le_trans (ih (min a x)) (min_le_left a x)

lemma foldl_min_le_mem (xs : List ℚ) : ∀ (a x : ℚ), x ∈ xs → xs.foldl min a ≤ x := by
  induction xs with
  | nil => intro a x hx; cases hx
  | cons y ys ih =>
    intro a x hx
    rcases List.mem_cons.mp hx with h | h
    · subst h; exact le_trans (foldl_min_le_init ys (min a x)) (min_le_right a x)
    · exact ih (min a y) x h

lemma foldl_min_mem (xs : List ℚ) : ∀ a : ℚ, xs.foldl min a ∈ a :: xs := by
  induction xs with
  | nil => intro a; exact List.mem_singleton.mpr rfl
  | cons y ys ih =>
    intro a
    show ys.foldl min (min a y) ∈ a :: y :: ys
    have hmem := ih (min a y)
    rcases List.mem_cons.mp hmem with h | h
    · rcases min_choice a y with hc | hc
      · exact List.mem_cons.mpr (Or.inl (h.trans hc))
      · exact List.mem_cons.mpr (Or.inr (List.mem_cons.mpr (Or.inl (h.trans hc))))
    · exact List.mem_cons.mpr (Or.inr (List.mem_cons.mpr (Or.inr h)))

lemma init_le_foldl_max (xs : List ℚ) : ∀ a : ℚ, a ≤ xs.foldl max a := by
  induction xs with
  | nil => intro a; exact le_refl a
  | cons x xs ih => intro a; exact le_trans (le_max_left a x) (ih (max a x))

lemma mem_le_foldl_max (xs : List ℚ) : ∀ (a x : ℚ), x ∈ xs → x ≤ xs.foldl max a := by
  induction xs with
  | nil => intro a x hx; cases hx
  | cons y ys ih =>
    intro a x hx
    rcases List.mem_cons.mp hx with h | h
    · subst h; exact le_trans (le_max_right a x) (init_le_foldl_max ys (max a x))
    · exact ih (max a y) x h

lemma foldl_max_mem (xs : List ℚ) : ∀ a : ℚ, xs.foldl max a ∈ a :: xs := by
  induction xs with
  | nil => intro a; exact List.mem_singleton.mpr rfl
  | cons y ys ih =>
    intro a
    show ys.foldl max (max a y) ∈ a :: y :: ys
    have hmem := ih (max a y)
    rcases List.mem_cons.mp hmem with h | h
    · rcases max_choice a y with hc | hc
      · exact List.mem_cons.mpr (Or.inl (h.trans hc))
      · exact List.mem_cons.mpr (Or.inr (List.mem_cons.mpr (Or.inl (h.trans hc))))
    · exact List.mem_cons.mpr (Or.inr (List.mem_cons.mpr (Or.inr h)))

lemma listMin_le (l : List ℚ) (s : ℚ) (h : listMin l = some s) : ∀ x ∈ l, s ≤ x := by
  cases l with
  | nil => cases h
  | cons y ys =>
    have hs : s = ys.foldl min y := by
      simpa [listMin] using h.symm
    intro x hx
    rcases List.mem_cons.mp hx with hxy | hxy
    · subst hxy; rw [hs]; exact foldl_min_le_init ys x
    · rw [hs]; exact foldl_min_le_mem ys y x hxy

lemma listMin_mem (l : List ℚ) (s : ℚ) (h : listMin l = some s) : s ∈ l := by
  cases l with
  | nil => cases h
  | cons y ys =>
    have hs : s = ys.foldl min y := by
      simpa [listMin] using h.symm
    rw [hs]
    exact foldl_min_mem ys y

lemma le_listMax (l : List ℚ) (e : ℚ) (h : listMax l = some e) : ∀ x ∈ l, x ≤ e := by
  cases l with
  | nil => cases h
  | cons y ys =>
    have he : e = ys.foldl max y := by
      simpa [listMax] using h.symm
    intro x hx
    rcases List.mem_cons.mp hx with hxy | hxy
    · subst hxy; rw [he]; exact init_le_foldl_max ys x
    · rw [he]; exact mem_le_foldl_max ys y x hxy

lemma listMax_mem (l : List ℚ) (e : ℚ) (h : listMax l = some e) : e ∈ l := by
  cases l with
  | nil => cases h
  | cons y ys =>
    have he : e = ys.foldl max y := by
      simpa [listMax] using h.symm
    rw [he]
    exact foldl_max_mem ys y

/-! ### Claims -/

/-- C2: for every raw record, the flow aggregator produces a sample whose flow is exactly
`1.0*passenger + 1.5*bus + 1.0*light-truck + 2.0*heavy-truck + 3.0*trailer +
1.0*motorcycle` (so all-zero counts give flow `0`), and whose timestamp is the record's
date plus `(slot - 1) * 5` minutes. -/
theorem flowSample_weightedSum_and_timestamp (row : RawRow) :
    (rowToSample (coerceRow row)).flow =
      1.0 * (coerceRow row).passenger + 1.5 * (coerceRow row).bus +
        1.0 * (coerceRow row).lightTruck + 2.0 * (coerceRow row).heavyTruck +
        3.0 * (coerceRow row).trailer + 1.0 * (coerceRow row).motorcycle ∧
    (rowToSample (coerceRow row)).ts =
      ((coerceRow row).date : ℚ) + ((coerceRow row).slot - 1) * 5 ∧
    ((coerceRow row).passenger = 0 ∧ (coerceRow row).bus = 0 ∧
      (coerceRow row).lightTruck = 0 ∧ (coerceRow row).heavyTruck = 0 ∧
      (coerceRow row).trailer = 0 ∧ (coerceRow row).motorcycle = 0 →
      (rowToSample (coerceRow row)).flow = 0) := by
  refine ⟨by simp only [rowToSample, totalFlow]; ring, rfl, ?_⟩
  rintro ⟨h1, h2, h3, h4, h5, h6⟩
  simp [rowToSample, totalFlow, h1, h2, h3, h4, h5, h6]

/-- Witness for C2 at a concrete all-malformed-count row. -/
theorem flowSample_weightedSum_and_timestamp_witness :
    (rowToSample (coerceRow ⟨"A", none, none, none, none, none, none, some 3, 1440⟩)).ts =
      ((1440 : ℤ) : ℚ) + ((3 : ℚ) - 1) * 5 ∧
    (rowToSample (coerceRow ⟨"A", none, none, none, none, none, none, some 3, 1440⟩)).flow = 0 :=
  ⟨(flowSample_weightedSum_and_timestamp _).2.1,
    (flowSample_weightedSum_and_timestamp _).2.2 ⟨rfl, rfl, rfl, rfl, rfl, rfl⟩⟩

/-- C5: every value of the reconstructed series is nonnegative, for every weight vector
and component collection. -/
theorem reconstructedSignal_nonneg (u : Fin 6 → List ℚ) (w : Fin 6 → ℚ) (x : ℚ)
    (hx : x ∈ reconstructedSignal u w) : 0 ≤ x := by
  rcases List.mem_map.mp hx with ⟨y, _, rfl⟩
  exact le_max_left 0 y

/-- Witness for C5: a component collection whose unclamped weighted sum is negative. -/
theorem reconstructedSignal_nonneg_witness :
    (0 : ℚ) ∈ reconstructedSignal (fun _ => [(-3 : ℚ)]) (fun _ => 1) ∧ (0 : ℚ) ≤ (0 : ℚ) :=
  ⟨by norm_num [reconstructedSignal, imfsWeighted, scaleSeries, npSumAxis0],
    reconstructedSignal_nonneg (fun _ => [(-3 : ℚ)]) (fun _ => 1) 0
      (by norm_num [reconstructedSignal, imfsWeighted, scaleSeries, npSumAxis0])⟩

/-- C6: with component `i`'s toggle off, its slider value does not affect the
reconstructed series: two runs differing only in slider `i` coincide. -/
theorem toggleOff_slider_irrelevant (u : Fin 6 → List ℚ) (toggles : Fin 6 → Bool)
    (sl sl' : Fin 6 → ℚ) (i : Fin 6) (hoff : toggles i = false)
    (hagree : ∀ j, j ≠ i → sl j = sl' j) :
    reconstructedSignal u (fun j => effectiveWeight (toggles j) (sl j)) =
      reconstructedSignal u (fun j => effectiveWeight (toggles j) (sl' j)) := by
  have hw : (fun j => effectiveWeight (toggles j) (sl j)) =
      fun j => effectiveWeight (toggles j) (sl' j) := by
    funext j
    by_cases hj : j = i
    · subst hj; simp [effectiveWeight, hoff]
    · rw [hagree j hj]
  rw [hw]

/-- Witness for C6: toggle 0 off, sliders differing only at component 0. -/
theorem toggleOff_slider_irrelevant_witness :
    reconstructedSignal (fun _ => [(7 : ℚ)])
        (fun j => effectiveWeight ((fun _ => false) j) ((fun _ => (1 : ℚ)) j)) =
      reconstructedSignal (fun _ => [(7 : ℚ)])
        (fun j => effectiveWeight ((fun _ => false) j)
          ((fun k => if k = (0 : Fin 6) then (2 : ℚ) else 1) j)) :=
  toggleOff_slider_irrelevant (fun _ => [(7 : ℚ)]) (fun _ => false) (fun _ => 1)
    (fun k => if k = (0 : Fin 6) then (2 : ℚ) else 1) 0 rfl
    (by intro j hj; simp [hj])

/-- C7: a field that fails numeric parsing is coerced to `0`, and the coerced record (hence
its flow and timestamp) is exactly the one obtained with that field equal to `0`; the
coercion is a total function, so it never fails. -/
theorem malformed_field_defaults_to_zero (row : RawRow) :
    coerceField none = 0 ∧
    (row.passenger = none → coerceRow row = coerceRow { row with passenger := some 0 }) ∧
    (row.bus = none → coerceRow row = coerceRow { row with bus := some 0 }) ∧
    (row.lightTruck = none → coerceRow row = coerceRow { row with lightTruck := some 0 }) ∧
    (row.heavyTruck = none → coerceRow row = coerceRow { row with heavyTruck := some 0 }) ∧
    (row.trailer = none → coerceRow row = coerceRow { row with trailer := some 0 }) ∧
    (row.motorcycle = none → coerceRow row = coerceRow { row with motorcycle := some 0 }) ∧
    (row.slot = none → coerceRow row = coerceRow { row with slot := some 0 }) := by
  refine ⟨rfl, ?_, ?_, ?_, ?_, ?_, ?_, ?_⟩ <;>
    · intro h
      simp [coerceRow, coerceField, h]

/-- Witness for C7 at a concrete row whose passenger count is malformed. -/
theorem malformed_field_defaults_to_zero_witness :
    coerceField none = 0 ∧
    coerceRow ⟨"A", none, some 1, some 1, some 1, some 1, some 1, some 2, 0⟩ =
      coerceRow ⟨"A", some 0, some 1, some 1, some 1, some 1, some 1, some 2, 0⟩ :=
  ⟨(malformed_field_defaults_to_zero
      ⟨"A", none, some 1, some 1, some 1, some 1, some 1, some 2, 0⟩).1,
    (malformed_field_defaults_to_zero
      ⟨"A", none, some 1, some 1, some 1, some 1, some 1, some 2, 0⟩).2.1 rfl⟩

/-- C10: a record whose time-slot field fails parsing is kept, its slot defaults to `0`,
so its timestamp is its date minus 5 minutes (23:55 of the previous day); its sample is
present in the sample collection, and the minimum timestamp of the series is at most
`date - 5`, i.e. the aligned range can start before the record's own date. -/
theorem unparsed_slot_shifts_before_date (row : RawRow) (rows : List RawRow)
    (hmem : row ∈ rows) (hslot : row.slot = none) :
    (rowToSample (coerceRow row)).ts = (row.date : ℚ) - 5 ∧
    (rowToSample (coerceRow row)).ts < (row.date : ℚ) ∧
    rowToSample (coerceRow row) ∈ rows.map (fun r => rowToSample (coerceRow r)) ∧
    ∀ s, listMin ((rows.map fun r => rowToSample (coerceRow r)).map Sample.ts) = some s →
      s ≤ (row.date : ℚ) - 5 := by
  have hts : (rowToSample (coerceRow row)).ts = (row.date : ℚ) - 5 := by
    simp only [rowToSample, recordDatetime, coerceRow, coerceField, hslot, Option.getD]
    ring
  have hin : rowToSample (coerceRow row) ∈ rows.map (fun r => rowToSample (coerceRow r)) :=
    List.mem_map.mpr ⟨row, hmem, rfl⟩
  refine ⟨hts, by rw [hts]; linarith, hin, ?_⟩
  intro s hs
  have := listMin_le _ s hs ((rowToSample (coerceRow row)).ts)
    (List.mem_map.mpr ⟨rowToSample (coerceRow row), hin, rfl⟩)
  rwa [hts] at this

/-- Witness for C10 at a concrete one-row collection with unparseable slot. -/
theorem unparsed_slot_shifts_before_date_witness :
    (rowToSample (coerceRow ⟨"A", some 4, none, none, none, none, none, none, 1440⟩)).ts =
      ((1440 : ℤ) : ℚ) - 5 ∧
    (rowToSample (coerceRow ⟨"A", some 4, none, none, none, none, none, none, 1440⟩)).ts <
      ((1440 : ℤ) : ℚ) ∧
    rowToSample (coerceRow ⟨"A", some 4, none, none, none, none, none, none, 1440⟩) ∈
      ([⟨"A", some 4, none, none, none, none, none, none, 1440⟩] : List RawRow).map
        (fun r => rowToSample (coerceRow r)) ∧
    ∀ s, listMin ((([⟨"A", some 4, none, none, none, none, none, none, 1440⟩] :
        List RawRow).map fun r => rowToSample (coerceRow r)).map Sample.ts) = some s →
      s ≤ ((1440 : ℤ) : ℚ) - 5 :=
  unparsed_slot_shifts_before_date _ _ (List.mem_singleton.mpr rfl) rfl

/-- C9 (code behaviour at the claimed edge case): a workbook whose single sheet carries the
`线圈号` column but whose rows are all the `'LoopId'` header-repeat sentinel leaves an empty
sample collection, and the pipeline raises (`pd.date_range(NaT, NaT)`), rather than
returning an empty series; a workbook with no qualifying sheet returns `None`, also not an
empty series. -/
theorem empty_input_raises_not_empty_series :
    loadAndPreprocess [⟨true, [⟨"LoopId", none, none, none, none, none, none, none, 0⟩]⟩] =
      some (Except.error ()) ∧
    loadAndPreprocess [⟨false, [⟨"A", some 1, none, none, none, none, none, some 1, 0⟩]⟩] =
      none := by
  exact ⟨rfl, rfl⟩

/-- C3: every value of the aligned series is the sum of the flows of all input samples
sharing that exact timestamp (duplicates are summed, never overwritten). -/
theorem gridAlign_sums_duplicate_timestamps (samples out : List Sample)
    (hok : gridAlign samples = Except.ok out) :
    ∀ sm ∈ out,
      sm.flow = ((samples.filter fun s => decide (s.ts = sm.ts)).map Sample.flow).sum := by
  intro sm hsm
  rcases hminv : listMin (samples.map Sample.ts) with _ | s
  · simp [gridAlign, hminv] at hok
  · rcases hmaxv : listMax (samples.map Sample.ts) with _ | e
    · simp [gridAlign, hminv, hmaxv] at hok
    · simp only [gridAlign, hminv, hmaxv, Except.ok.injEq] at hok
      subst hok
      rcases List.mem_map.mp hsm with ⟨t, _, rfl⟩
      show alignValue samples t = _
      by_cases hmem : t ∈ samples.map Sample.ts
      · simp [alignValue, hmem, aggFlow]
      · have hfil : (samples.filter fun s' => decide (s'.ts = t)) = [] := by
          refine List.filter_eq_nil_iff.mpr ?_
          intro a ha
          simp only [decide_eq_true_eq]
          intro hat
          exact hmem (List.mem_map.mpr ⟨a, ha, hat⟩)
        simp [alignValue, hmem, hfil]

/-- Witness for C3: two samples at the same timestamp, flows 10 and 20, aggregate to 30. -/
theorem gridAlign_sums_duplicate_timestamps_witness :
    (⟨0, 30⟩ : Sample).flow =
      ((([⟨0, 10⟩, ⟨0, 20⟩] : List Sample).filter
        fun s => decide (s.ts = (⟨0, 30⟩ : Sample).ts)).map Sample.flow).sum :=
  gridAlign_sums_duplicate_timestamps [⟨0, 10⟩, ⟨0, 20⟩] [⟨0, 30⟩]
    (by norm_num [gridAlign, listMin, listMax, dateRange, alignValue, aggFlow,
      show List.range 1 = [0] from rfl])
    ⟨0, 30⟩ (List.mem_singleton.mpr rfl)

/-! ### Helper lemmas for the weighted reconstruction -/

lemma getD_zipWith_add (xs ys : List ℚ) (t : ℕ) (hx : t < xs.length) (hy : t < ys.length) :
    (List.zipWith (· + ·) xs ys).getD t 0 = xs.getD t 0 + ys.getD t 0 := by
  induction xs generalizing ys t with
  | nil => cases hx
  | cons x xs ih =>
    cases ys with
    | nil => cases hy
    | cons y ys =>
      cases t with
      | zero => rfl
      | succ t =>
        simp only [List.zipWith_cons_cons, List.getD_cons_succ]
        exact ih ys t (Nat.lt_of_succ_lt_succ hx) (Nat.lt_of_succ_lt_succ hy)

lemma getD_scaleSeries (xs : List ℚ) (c : ℚ) (t : ℕ) (ht : t < xs.length) :
    (scaleSeries xs c).getD t 0 = xs.getD t 0 * c := by
  induction xs generalizing t with
  | nil => cases ht
  | cons x xs ih =>
    cases t with
    | zero => rfl
    | succ t =>
      simp only [scaleSeries, List.map_cons, List.getD_cons_succ]
      exact ih t (Nat.lt_of_succ_lt_succ ht)

lemma getD_map_max (l : List ℚ) (t : ℕ) (ht : t < l.length) :
    (l.map fun x => max 0 x).getD t 0 = max 0 (l.getD t 0) := by
  induction l generalizing t with
  | nil => cases ht
  | cons x xs ih =>
    cases t with
    | zero => rfl
    | succ t =>
      simp only [List.map_cons, List.getD_cons_succ]
      exact ih t (Nat.lt_of_succ_lt_succ ht)

/-- C4: when the six component series share length `n`, the reconstructed series has
length `n`, equals `max 0 (∑ i, u i [t] * w i)` at every index `t < n`, and is the
all-zero series when all weights are `0`. -/
theorem reconstructedSignal_spec (u : Fin 6 → List ℚ) (w : Fin 6 → ℚ) (n : ℕ)
    (h : ∀ i, (u i).length = n) :
    (reconstructedSignal u w).length = n ∧
    (∀ t, t < n → (reconstructedSignal u w).getD t 0 =
      max 0 (∑ i : Fin 6, (u i).getD t 0 * w i)) ∧
    ((∀ i, w i = 0) → reconstructedSignal u w = List.replicate n 0) := by
  have hL : ∀ i : Fin 6, (scaleSeries (u i) (w i)).length = n := by
    intro i; simp [scaleSeries, h]
  have h01 : (List.zipWith (· + ·) (scaleSeries (u 0) (w 0))
      (scaleSeries (u 1) (w 1))).length = n := by
    rw [List.length_zipWith, hL 0, hL 1, min_self]
  have h02 : (List.zipWith (· + ·) (List.zipWith (· + ·) (scaleSeries (u 0) (w 0))
      (scaleSeries (u 1) (w 1))) (scaleSeries (u 2) (w 2))).length = n := by
    rw [List.length_zipWith, h01, hL 2, min_self]
  have h03 : (List.zipWith (· + ·) (List.zipWith (· + ·) (List.zipWith (· + ·)
      (scaleSeries (u 0) (w 0)) (scaleSeries (u 1) (w 1))) (scaleSeries (u 2) (w 2)))
      (scaleSeries (u 3) (w 3))).length = n := by
    rw [List.length_zipWith, h02, hL 3, min_self]
  have h04 : (List.zipWith (· + ·) (List.zipWith (· + ·) (List.zipWith (· + ·)
      (List.zipWith (· + ·) (scaleSeries (u 0) (w 0)) (scaleSeries (u 1) (w 1)))
      (scaleSeries (u 2) (w 2))) (scaleSeries (u 3) (w 3)))
      (scaleSeries (u 4) (w 4))).length = n := by
    rw [List.length_zipWith, h03, hL 4, min_self]
  have h05 : (List.zipWith (· + ·) (List.zipWith (· + ·) (List.zipWith (· + ·)
      (List.zipWith (· + ·) (List.zipWith (· + ·) (scaleSeries (u 0) (w 0))
      (scaleSeries (u 1) (w 1))) (scaleSeries (u 2) (w 2))) (scaleSeries (u 3) (w 3)))
      (scaleSeries (u 4) (w 4))) (scaleSeries (u 5) (w 5))).length = n := by
    rw [List.length_zipWith, h04, hL 5, min_self]
  have hsum : npSumAxis0 (imfsWeighted u w) =
      List.zipWith (· + ·) (List.zipWith (· + ·) (List.zipWith (· + ·)
      (List.zipWith (· + ·) (List.zipWith (· + ·) (scaleSeries (u 0) (w 0))
      (scaleSeries (u 1) (w 1))) (scaleSeries (u 2) (w 2))) (scaleSeries (u 3) (w 3)))
      (scaleSeries (u 4) (w 4))) (scaleSeries (u 5) (w 5)) := rfl
  have hlen : (reconstructedSignal u w).length = n := by
    rw [reconstructedSignal, List.length_map, hsum, h05]
  have hval : ∀ t, t < n → (reconstructedSignal u w).getD t 0 =
      max 0 (∑ i : Fin 6, (u i).getD t 0 * w i) := by
    intro t ht
    rw [reconstructedSignal, hsum,
      getD_map_max _ t (by rw [h05]; exact ht),
      getD_zipWith_add _ _ t (by rw [h04]; exact ht) (by rw [hL 5]; exact ht),
      getD_zipWith_add _ _ t (by rw [h03]; exact ht) (by rw [hL 4]; exact ht),
      getD_zipWith_add _ _ t (by rw [h02]; exact ht) (by rw [hL 3]; exact ht),
      getD_zipWith_add _ _ t (by rw [h01]; exact ht) (by rw [hL 2]; exact ht),
      getD_zipWith_add _ _ t (by rw [hL 0]; exact ht) (by rw [hL 1]; exact ht),
      getD_scaleSeries _ _ t (by rw [h 0]; exact ht),
      getD_scaleSeries _ _ t (by rw [h 1]; exact ht),
      getD_scaleSeries _ _ t (by rw [h 2]; exact ht),
      getD_scaleSeries _ _ t (by rw [h 3]; exact ht),
      getD_scaleSeries _ _ t (by rw [h 4]; exact ht),
      getD_scaleSeries _ _ t (by rw [h 5]; exact ht),
      Fin.sum_univ_six]
  refine ⟨hlen, hval, ?_⟩
  intro hw
  refine List.eq_replicate_iff.mpr ⟨hlen, ?_⟩
  intro b hb
  rcases List.mem_iff_getElem.mp hb with ⟨t, hlt, hbt⟩
  have htn : t < n := by rw [hlen] at hlt; exact hlt
  have := hval t htn
  rw [List.getD_eq_getElem _ _ hlt, hbt] at this
  rw [this]
  simp [hw]

/-- Witness for C4 at concrete length-2 components. -/
theorem reconstructedSignal_spec_witness :
    (reconstructedSignal (fun i => [(i : ℚ), 1]) (fun _ => 0)).length = 2 ∧
    (∀ t, t < 2 → (reconstructedSignal (fun i => [(i : ℚ), 1]) (fun _ => 0)).getD t 0 =
      max 0 (∑ i : Fin 6, ((fun j => [(j : ℚ), 1]) i).getD t 0 * (fun _ => (0 : ℚ)) i)) ∧
    ((∀ i : Fin 6, (fun _ => (0 : ℚ)) i = 0) →
      reconstructedSignal (fun i => [(i : ℚ), 1]) (fun _ => 0) = List.replicate 2 0) :=
  reconstructedSignal_spec (fun i => [(i : ℚ), 1]) (fun _ => 0) 2 (fun _ => rfl)

/-! ### Helper lemmas for the selectable start dates -/

lemma pdUnique_foldl_nodup (l : List ℤ) : ∀ acc : List ℤ, acc.Nodup →
    (l.foldl (fun acc x => if x ∈ acc then acc else acc ++ [x]) acc).Nodup := by
  induction l with
  | nil => intro acc h; exact h
  | cons x xs ih =>
    intro acc h
    show (xs.foldl _ (if x ∈ acc then acc else acc ++ [x])).Nodup
    by_cases hx : x ∈ acc
    · rw [if_pos hx]; exact ih acc h
    · rw [if_neg hx]
      refine ih _ ?_
      simp [List.nodup_append, h, hx]

lemma uniqueDates_nodup (series : List Sample) : (uniqueDates series).Nodup :=
  pdUnique_foldl_nodup _ [] List.nodup_nil

lemma mem_dropLast_of_nodup (l : List ℤ) (hl : l.Nodup) (hne : l ≠ []) (d : ℤ) :
    d ∈ l.dropLast ↔ d ∈ l ∧ d ≠ l.getLast hne := by
  have hsplit : l.dropLast ++ [l.getLast hne] = l := List.dropLast_append_getLast hne
  constructor
  · intro hd
    have hdl : d ∈ l := by rw [← hsplit]; exact List.mem_append_left _ hd
    refine ⟨hdl, ?_⟩
    intro heq
    rw [← hsplit] at hl
    rcases List.nodup_append.mp hl with ⟨_, _, hdisj⟩
    exact hdisj hd (heq ▸ List.mem_singleton.mpr rfl)
  · rintro ⟨hd, hne2⟩
    rw [← hsplit] at hd
    rcases List.mem_append.mp hd with hcase | hcase
    · exact hcase
    · exact absurd (List.mem_singleton.mp hcase) hne2

/-- C8: with a 2-day window the selectable start dates are exactly the unique dates of the
aligned series minus its last date (so the last date can never be chosen); with a 1-day
window every unique date is selectable. -/
theorem validStartDates_spec (series : List Sample) (hne : uniqueDates series ≠ []) :
    ((uniqueDates series).getLast hne ∉ validStartDates series 2) ∧
    (∀ d, d ∈ validStartDates series 2 ↔
      d ∈ uniqueDates series ∧ d ≠ (uniqueDates series).getLast hne) ∧
    validStartDates series 1 = uniqueDates series := by
  have hnd := uniqueDates_nodup series
  have hiff := fun d => mem_dropLast_of_nodup (uniqueDates series) hnd hne d
  refine ⟨?_, ?_, ?_⟩
  · intro hmem
    have hin := (hiff _).mp (by simpa [validStartDates] using hmem)
    exact hin.2 rfl
  · intro d
    simpa [validStartDates] using hiff d
  · simp [validStartDates]

/-- Witness for C8 at a two-day aligned series. -/
theorem validStartDates_spec_witness :
    validStartDates [⟨0, 1⟩, ⟨1440, 2⟩] 1 = uniqueDates [⟨0, 1⟩, ⟨1440, 2⟩] :=
  (validStartDates_spec [⟨0, 1⟩, ⟨1440, 2⟩]
    (by norm_num [uniqueDates, pdUnique, dateOf]; exact List.cons_ne_nil 0 [1])).2.2

/-- C1: on a non-empty sample collection whose timestamps lie on the 5-minute grid (as all
aggregator outputs do: dates are midnights and slot indices are integral), the aligner
succeeds and its output has exactly `(max - min)/5 + 1` samples, consecutive timestamps
differ by exactly 5 minutes (so the axis is strictly increasing with no gaps and no
duplicates), and every grid timestamp carrying no aggregated value has flow `0`. -/
theorem gridAlign_completeness (samples : List Sample) (s e : ℚ)
    (hmin : listMin (samples.map Sample.ts) = some s)
    (hmax : listMax (samples.map Sample.ts) = some e)
    (hdiv : ∀ sm ∈ samples, ∃ k : ℤ, sm.ts = 5 * k) :
    ∃ out, gridAlign samples = Except.ok out ∧
      (out.length : ℚ) = (e - s) / 5 + 1 ∧
      (∀ i : ℕ, i + 1 < out.length →
        (out.getD (i + 1) ⟨0, 0⟩).ts = (out.getD i ⟨0, 0⟩).ts + 5) ∧
      ∀ sm ∈ out, sm.ts ∉ samples.map Sample.ts → sm.flow = 0 := by
  have hsmem : s ∈ samples.map Sample.ts := listMin_mem _ s hmin
  have hemem : e ∈ samples.map Sample.ts := listMax_mem _ e hmax
  have hse : s ≤ e := le_listMax _ e hmax s hsmem
  obtain ⟨sms, hsms, hsts⟩ := List.mem_map.mp hsmem
  obtain ⟨sme, hsme, hets⟩ := List.mem_map.mp hemem
  obtain ⟨a, ha⟩ := hdiv sms hsms
  obtain ⟨b, hb⟩ := hdiv sme hsme
  have hsa : s = 5 * (a : ℚ) := by rw [← hsts]; exact ha
  have hsb : e = 5 * (b : ℚ) := by rw [← hets]; exact hb
  have hab : (a : ℚ) ≤ (b : ℚ) := by
    have h5 := hse
    rw [hsa, hsb] at h5
    linarith
  have habz : a ≤ b := by exact_mod_cast hab
  have hdiv5 : (e - s) / 5 = ((b - a : ℤ) : ℚ) := by
    rw [hsa, hsb, div_eq_iff (by norm_num : (5 : ℚ) ≠ 0)]
    push_cast
    ring
  have htoNat : ⌊(e - s) / 5⌋.toNat = (b - a).toNat := by
    rw [hdiv5, Int.floor_intCast]
  have hbaNat : (((b - a).toNat : ℤ) : ℚ) = (e - s) / 5 := by
    rw [Int.toNat_of_nonneg (sub_nonneg.mpr habz), hdiv5]
  have hgrid : dateRange s e =
      (List.range ((b - a).toNat + 1)).map fun k : ℕ => s + 5 * (k : ℚ) := by
    unfold dateRange
    rw [if_pos hse, htoNat]
  have hok0 : gridAlign samples =
      .ok ((dateRange s e).map fun t => ⟨t, alignValue samples t⟩) := by
    simp only [gridAlign, hmin, hmax]
  have hok : gridAlign samples =
      .ok ((((List.range ((b - a).toNat + 1)).map fun k : ℕ => s + 5 * (k : ℚ)).map
        fun t => ⟨t, alignValue samples t⟩)) := by
    rw [hok0, hgrid]
  refine ⟨_, hok, ?_, ?_, ?_⟩
  · simp only [List.length_map, List.length_range]
    rw [show (((b - a).toNat + 1 : ℕ) : ℚ) = (((b - a).toNat : ℤ) : ℚ) + 1 by
      push_cast; ring, hbaNat]
  · intro i hi2
    have hi1 : i < (((List.range ((b - a).toNat + 1)).map fun k : ℕ =>
        s + 5 * (k : ℚ)).map
        fun t => (⟨t, alignValue samples t⟩ : Sample)).length := Nat.lt_of_succ_lt hi2
    rw [List.getD_eq_getElem _ _ hi2, List.getD_eq_getElem _ _ hi1]
    simp only [List.getElem_map, List.getElem_range]
    push_cast
    ring
  · intro sm hsm hnot
    rcases List.mem_map.mp hsm with ⟨t, _, rfl⟩
    have ht : t ∉ samples.map Sample.ts := hnot
    show alignValue samples t = 0
    unfold alignValue
    rw [if_neg ht]

/-- Witness for C1: samples at minutes 0 and 10; the grid is `[0, 5, 10]` with the gap at
minute 5 filled with flow `0`. -/
theorem gridAlign_completeness_witness :
    ∃ out, gridAlign [⟨0, 10⟩, ⟨10, 20⟩] = Except.ok out ∧
      (out.length : ℚ) = ((10 : ℚ) - 0) / 5 + 1 ∧
      (∀ i : ℕ, i + 1 < out.length →
        (out.getD (i + 1) ⟨0, 0⟩).ts = (out.getD i ⟨0, 0⟩).ts + 5) ∧
      ∀ sm ∈ out, sm.ts ∉ ([⟨0, 10⟩, ⟨10, 20⟩] : List Sample).map Sample.ts →
        sm.flow = 0 :=
  gridAlign_completeness [⟨0, 10⟩, ⟨10, 20⟩] 0 10
    (by norm_num [listMin]) (by norm_num [listMax])
    (by
      intro sm hsm
      simp only [List.mem_cons, List.not_mem_nil, or_false] at hsm
      rcases hsm with rfl | rfl
      · exact ⟨0, by norm_num⟩
      · exact ⟨2, by norm_num⟩)

end VMDDemo
